import Mathlib

/-!
Verification of the real-time gunshot-detection pipeline
(`gunshot_detector_v1192_official.c`).

The C source is shallowly embedded: pure arithmetic on `float` is modelled
over `ℚ` (every comparison and branch settled here is far from any float
rounding boundary, and all constants are written as the exact rationals the
source literals denote); `time_t` is modelled as `ℤ`; transcendental library
calls (`expf`, `log10f`, `cosf`) and the external FFT/inference engines are
abstracted as function parameters, since they are library code, not code of
this repository.  The square-root in the loudness gate is removed by squaring
both sides of the comparison (`sqrt` is monotone on nonnegatives, so
`sqrt (s / n) < c ↔ s / n < c²` for `c > 0`).
-/

namespace Gunshot

/-! Section: Constants (source lines 44-76) -/

def SAMPLE_RATE : ℕ := 48000
def N_FFT : ℕ := 1024
def HOP_LENGTH : ℕ := 512
def N_MELS : ℕ := 28
def N_FRAMES : ℕ := 160
def EXPECTED_INPUT_SIZE : ℕ := N_MELS * N_FRAMES
def AUDIO_BUFFER_SIZE : ℕ := 180800
def INFERENCE_THRESHOLD : ℕ := 88000
def N_FFT_BINS : ℕ := N_FFT / 2 + 1
def EMAIL_RATE_LIMIT_SECONDS : ℤ := 120

/-- The exact rational denoted by the source literal `0.003921568859368563f`
(lines 692 and 745); this is the float32 closest to 1/255. -/
def quantScale : ℚ := 3921568859368563 / 1000000000000000000

/-- `zero_point` constant, line 693. -/
def quantZeroPoint : ℤ := -128

/-- Squared noise floor: the gate at line 724 is `rms < 0.001f` with
`rms = sqrt(meanSq)`, equivalently `meanSq < (1/1000)²`. -/
def MIN_RMS_SQ : ℚ := 1 / 1000000

/-! Section: Quantizer (lines 691-705) -/

/-- C `roundf`: round to nearest, ties away from zero. -/
def roundf (x : ℚ) : ℤ :=
  if 0 ≤ x then ⌊x + 1/2⌋ else -⌊-x + 1/2⌋

/-- The integer produced at line 698 before the clamp of lines 700-701:
`(int)roundf(((v - 0.5f) * 2.0f) / scale) + zero_point`. -/
def preclampQuant (v : ℚ) : ℤ :=
  roundf ((v - 1/2) * 2 / quantScale) + quantZeroPoint

/-- One element of `quantize_input` (lines 695-704): re-center, scale, round,
offset, clamp to `[-128,127]`. -/
def quantize_elem (v : ℚ) : ℤ :=
  let q := preclampQuant v
  if q < -128 then -128 else if q > 127 then 127 else q

/-- Affine inverse from the spec glossary: `(q - zero_point) * scale`. -/
def dequantize (q : ℤ) : ℚ := ((q : ℚ) - (quantZeroPoint : ℚ)) * quantScale

/-! Section: Inference output post-processing (lines 744-755) -/

structure InferencePost where
  output1 : ℚ
  output2 : ℚ
  prob1 : ℚ
  prob2 : ℚ
  confidence : ℚ

/-- Spec-side softmax of a pair, with the exponential abstract. -/
def softmaxPair (e : ℚ → ℚ) (a b : ℚ) : ℚ × ℚ :=
  (e a / (e a + e b), e b / (e a + e b))

/-- Lines 744-755 verbatim: the output bytes are dequantized as
`q * scale + (-128 * scale)`, softmax-normalized with `expf` (abstracted as
`e`), and `confidence = prob2 * 100`. -/
def postprocess (e : ℚ → ℚ) (q1 q2 : ℤ) : InferencePost :=
  let output1 := (q1 : ℚ) * quantScale + (-128) * quantScale
  let output2 := (q2 : ℚ) * quantScale + (-128) * quantScale
  let exp1 := e output1
  let exp2 := e output2
  let sum := exp1 + exp2
  { output1 := output1
    output2 := output2
    prob1 := exp1 / sum
    prob2 := exp2 / sum
    confidence := exp2 / sum * 100 }

/-! Section: Helper lemmas about `roundf` -/

lemma roundf_sub_le (x : ℚ) : |(roundf x : ℚ) - x| ≤ 1/2 := by
  unfold roundf
  split_ifs with h
  · have h1 : (⌊x + 1/2⌋ : ℚ) ≤ x + 1/2 := Int.floor_le _
    have h2 : x + 1/2 < ⌊x + 1/2⌋ + 1 := Int.lt_floor_add_one _
    rw [abs_le]
    constructor <;> [push_cast; push_cast] <;> linarith
  · have h1 : (⌊-x + 1/2⌋ : ℚ) ≤ -x + 1/2 := Int.floor_le _
    have h2 : -x + 1/2 < ⌊-x + 1/2⌋ + 1 := Int.lt_floor_add_one _
    rw [abs_le]
    constructor <;> [push_cast; push_cast] <;> linarith

lemma roundf_nonpos (x : ℚ) (h : x ≤ 0) : roundf x ≤ 0 := by
  unfold roundf
  split_ifs with h0
  · have hx0 : x = 0 := le_antisymm h h0
    subst hx0
    norm_num
  · have : (0 : ℤ) ≤ ⌊-x + 1/2⌋ := by
      apply Int.floor_nonneg.mpr
      linarith
    omega

lemma roundf_nonneg (x : ℚ) (h : 0 ≤ x) : 0 ≤ roundf x := by
  unfold roundf
  rw [if_pos h]
  apply Int.floor_nonneg.mpr
  linarith

lemma quantScale_pos : 0 < quantScale := by norm_num [quantScale]

/-- `255 * scale > 1`, i.e. `1/scale < 255`; the scale is slightly above 1/255. -/
lemma one_lt_255_quantScale : 1 < 255 * quantScale := by norm_num [quantScale]

/-- Shared helper: for a re-centered value that is nonpositive (`v ≤ 1/2`),
the pre-clamp integer is at most `-128` and the clamp yields exactly `-128`. -/
lemma quantize_elem_of_le_half (v : ℚ) (h : v ≤ 1/2) :
    preclampQuant v ≤ -128 ∧ quantize_elem v = -128 := by
  have hc : (v - 1/2) * 2 ≤ 0 := by linarith
  have hx : (v - 1/2) * 2 / quantScale ≤ 0 :=
    div_nonpos_of_nonpos_of_nonneg hc (le_of_lt quantScale_pos)
  have hr : roundf ((v - 1/2) * 2 / quantScale) ≤ 0 := roundf_nonpos _ hx
  have hpre : preclampQuant v ≤ -128 := by
    unfold preclampQuant quantZeroPoint
    omega
  refine ⟨hpre, ?_⟩
  unfold quantize_elem
  by_cases hlt : preclampQuant v < -128
  · simp [hlt]
  · have : preclampQuant v = -128 := by omega
    simp [hlt, this]

/-- When the re-centered value is positive, the clamp is inactive and the
quantized value is `roundf(c/scale) - 128` with `roundf(c/scale) ∈ [0, 255]`. -/
lemma quantize_elem_of_pos_centered (v : ℚ) (h0 : 1/2 < v) (h1 : v ≤ 1) :
    quantize_elem v = roundf ((v - 1/2) * 2 / quantScale) + quantZeroPoint ∧
    0 ≤ roundf ((v - 1/2) * 2 / quantScale) ∧
    roundf ((v - 1/2) * 2 / quantScale) ≤ 255 := by
  have hcpos : 0 < (v - 1/2) * 2 := by linarith
  have hcle : (v - 1/2) * 2 ≤ 1 := by linarith
  have hxnn : 0 ≤ (v - 1/2) * 2 / quantScale := le_of_lt (div_pos hcpos quantScale_pos)
  have hrnn : 0 ≤ roundf ((v - 1/2) * 2 / quantScale) := roundf_nonneg _ hxnn
  have hxub : (v - 1/2) * 2 / quantScale < 255 := by
    have h255 : 1 / quantScale < 255 := by
      rw [div_lt_iff₀ quantScale_pos]
      linarith [one_lt_255_quantScale]
    have hmono : (v - 1/2) * 2 / quantScale ≤ 1 / quantScale :=
      (div_le_div_iff_of_pos_right quantScale_pos).mpr hcle
    linarith
  have hrub : roundf ((v - 1/2) * 2 / quantScale) ≤ 255 := by
    unfold roundf
    rw [if_pos hxnn]
    have : ⌊(v - 1/2) * 2 / quantScale + 1/2⌋ < 256 := by
      apply Int.floor_lt.mpr
      push_cast
      linarith
    omega
  refine ⟨?_, hrnn, hrub⟩
  unfold quantize_elem preclampQuant quantZeroPoint
  have hq1 : ¬ (roundf ((v - 1/2) * 2 / quantScale) + (-128 : ℤ) < -128) := by omega
  have hq2 : ¬ (roundf ((v - 1/2) * 2 / quantScale) + (-128 : ℤ) > 127) := by omega
  simp only [hq1, hq2, if_false]

/-! Section: Claims C10, C4, C7 -/

/-- Claim C10: for every feature value `v ∈ [0, 1/2]`, the pre-clamp integer
`roundf((v-0.5)·2/scale) + zero_point` is `-128` or below, so the quantizer
outputs exactly `-128`: the entire lower half of the normalized feature range
collapses to the single quantized value `-128`. -/
theorem quantizer_collapses_lower_half (v : ℚ) (h0 : 0 ≤ v) (h1 : v ≤ 1/2) :
    preclampQuant v ≤ -128 ∧ quantize_elem v = -128 :=
  quantize_elem_of_le_half v h1

theorem quantizer_collapses_lower_half_witness :
    (0 ≤ (1/4 : ℚ) ∧ (1/4 : ℚ) ≤ 1/2) ∧
    (preclampQuant (1/4) ≤ -128 ∧ quantize_elem (1/4) = -128) :=
  ⟨⟨by norm_num, by norm_num⟩,
   quantizer_collapses_lower_half (1/4) (by norm_num) (by norm_num)⟩

/-- Claim C4 counterexample: at `v = 1/2` the quantizer outputs `-128` and the
affine inverse returns `0`, which is `1/2` away from `v` — far more than one
quantization step (`scale ≈ 0.0039`).  The claimed round-trip bound
`|dequantize (quantize v) - v| ≤ scale` therefore fails. -/
theorem quantize_roundtrip_fails_at_half :
    dequantize (quantize_elem (1/2)) = 0 ∧
    ¬ |dequantize (quantize_elem (1/2)) - 1/2| ≤ quantScale := by
  have h := (quantize_elem_of_le_half (1/2) (le_refl _)).2
  rw [h]
  have hz : dequantize (-128 : ℤ) = 0 := by norm_num [dequantize, quantZeroPoint]
  rw [hz]
  constructor
  · rfl
  · rw [zero_sub, abs_neg, abs_of_nonneg (by norm_num : (0:ℚ) ≤ 1/2)]
    norm_num [quantScale]

/-- Claim C4 amended: the quantize-dequantize round trip tracks the re-centered
value `max 0 ((v-0.5)·2)` (the `[0,1]` input is first mapped to `[-1,1]`, and
the clamp at `-128` truncates the negative half) to within one quantization
step — not the original `v`. -/
theorem quantize_roundtrip_tracks_recentered (v : ℚ) (h0 : 0 ≤ v) (h1 : v ≤ 1) :
    |dequantize (quantize_elem v) - max 0 ((v - 1/2) * 2)| ≤ quantScale := by
  by_cases hv : v ≤ 1/2
  · rw [(quantize_elem_of_le_half v hv).2,
      max_eq_left (by linarith : (v - 1/2) * 2 ≤ 0)]
    have : dequantize (-128) = 0 := by norm_num [dequantize, quantZeroPoint]
    rw [this]
    simpa using le_of_lt quantScale_pos
  · push_neg at hv
    obtain ⟨heq, hlo, hhi⟩ := quantize_elem_of_pos_centered v hv h1
    rw [heq, max_eq_right (by linarith : (0:ℚ) ≤ (v - 1/2) * 2)]
    set x : ℚ := (v - 1/2) * 2 / quantScale with hx
    have hdeq : dequantize (roundf x + quantZeroPoint)
        = (roundf x : ℚ) * quantScale := by
      unfold dequantize quantZeroPoint
      push_cast
      ring
    rw [hdeq]
    have hc : (v - 1/2) * 2 = x * quantScale := by
      rw [hx, div_mul_cancel₀ _ (ne_of_gt quantScale_pos)]
    rw [hc, ← sub_mul, abs_mul, abs_of_pos quantScale_pos]
    have hs := roundf_sub_le x
    have := mul_le_mul_of_nonneg_right hs (le_of_lt quantScale_pos)
    linarith [quantScale_pos]

theorem quantize_roundtrip_tracks_recentered_witness :
    (0 ≤ (3/4 : ℚ) ∧ (3/4 : ℚ) ≤ 1) ∧
    |dequantize (quantize_elem (3/4)) - max 0 (((3/4 : ℚ) - 1/2) * 2)| ≤ quantScale :=
  ⟨⟨by norm_num, by norm_num⟩,
   quantize_roundtrip_tracks_recentered (3/4) (by norm_num) (by norm_num)⟩

/-- Claim C7 counterexample: line 745 dequantizes an output byte `q` as
`q·scale + (-128·scale) = (q - 128)·scale`, which is `(q + zero_point)·scale`,
not the claimed affine inverse `(q - zero_point)·scale = (q + 128)·scale`.
At `q = 0` the code produces `-128·scale` while the claimed formula gives
`+128·scale`. -/
theorem output_dequant_sign_flip :
    (postprocess (fun _ => 1) 0 0).output1 = -(128 * quantScale) ∧
    dequantize 0 = 128 * quantScale ∧
    (postprocess (fun _ => 1) 0 0).output1 ≠ dequantize 0 := by
  refine ⟨?_, ?_, ?_⟩ <;>
    norm_num [postprocess, dequantize, quantZeroPoint, quantScale]

/-- Claim C7 amended: each int8 output `q` is dequantized as
`q·scale + (-128·scale)`, i.e. the claimed affine inverse `(q - zero_point)·scale`
shifted by the constant `-256·scale`; the shift is the same for both outputs,
so the difference of the two dequantized logits equals the difference under
the claimed formula.  Softmax (with `expf` abstract) is then applied to the two
dequantized values, `confidence = prob_positive·100`, and (whenever the
exponential is positive) the two probabilities sum to 1. -/
theorem output_dequant_and_softmax (e : ℚ → ℚ) (q1 q2 : ℤ) :
    (postprocess e q1 q2).output1 = dequantize q1 - 256 * quantScale ∧
    (postprocess e q1 q2).output2 = dequantize q2 - 256 * quantScale ∧
    (postprocess e q1 q2).output2 - (postprocess e q1 q2).output1
      = dequantize q2 - dequantize q1 ∧
    ((postprocess e q1 q2).prob1, (postprocess e q1 q2).prob2)
      = softmaxPair e ((postprocess e q1 q2).output1) ((postprocess e q1 q2).output2) ∧
    (postprocess e q1 q2).confidence = (postprocess e q1 q2).prob2 * 100 ∧
    (0 < e ((postprocess e q1 q2).output1) → 0 < e ((postprocess e q1 q2).output2) →
      (postprocess e q1 q2).prob1 + (postprocess e q1 q2).prob2 = 1) := by
  refine ⟨?_, ?_, ?_, rfl, rfl, ?_⟩
  · unfold postprocess dequantize quantZeroPoint
    push_cast
    ring
  · unfold postprocess dequantize quantZeroPoint
    push_cast
    ring
  · unfold postprocess dequantize quantZeroPoint
    push_cast
    ring
  · intro h1 h2
    unfold postprocess at h1 h2 ⊢
    simp only at h1 h2 ⊢
    rw [div_add_div_same, div_self (by linarith : e _ + e _ ≠ 0)]

theorem output_dequant_and_softmax_witness :
    (0 < (fun _ : ℚ => (1:ℚ)) ((postprocess (fun _ => 1) 0 0).output1) ∧
     0 < (fun _ : ℚ => (1:ℚ)) ((postprocess (fun _ => 1) 0 0).output2)) ∧
    ((postprocess (fun _ => (1:ℚ)) 0 0).prob1 + (postprocess (fun _ => (1:ℚ)) 0 0).prob2 = 1) :=
  ⟨⟨one_pos, one_pos⟩,
   (output_dequant_and_softmax (fun _ => 1) 0 0).2.2.2.2.2 one_pos one_pos⟩

/-! Section: Configuration threshold updates (lines 195-209 and 279-287)

Each entry point is modelled as a function from the parsed integer percentage
and the current threshold to the new threshold together with a Bool recording
whether a validation-failure warning was emitted (the `syslog(LOG_WARNING,
"... out of range ...")` at line 204; the DBus handler has no such warning). -/

/-- Config-file reload path, lines 195-209: converts the parsed integer to a
fraction and accepts it iff `0.30 ≤ t/100 ≤ 0.70`, logging a warning
otherwise. -/
def load_config_threshold (threshold_int : ℤ) (cur : ℚ) : ℚ × Bool :=
  if 30/100 ≤ (threshold_int : ℚ) / 100 ∧ (threshold_int : ℚ) / 100 ≤ 70/100 then
    ((threshold_int : ℚ) / 100, false)
  else
    (cur, true)

/-- DBus parameter-change path, lines 279-287: accepts iff `30 ≤ t ≤ 70`;
an out-of-range value is ignored with no warning (there is no else branch). -/
def on_parameter_changed_threshold (threshold_int : ℤ) (cur : ℚ) : ℚ × Bool :=
  if 30 ≤ threshold_int ∧ threshold_int ≤ 70 then
    ((threshold_int : ℚ) / 100, false)
  else
    (cur, false)

/-- Claim C8 counterexample: an out-of-range threshold (80%) delivered through
the parameter-change entry point is rejected with the prior value retained,
but no validation failure is signalled (the handler's range check has no else
branch), contradicting the claim that a validation failure is logged on every
rejected update. -/
theorem dbus_rejection_is_silent :
    on_parameter_changed_threshold 80 (9/20) = (9/20, false) := by
  norm_num [on_parameter_changed_threshold]

/-- Claim C8 amended: on both entry points a threshold update is accepted
exactly when the integer percentage lies in `[30,70]` (equivalently the
fraction lies in `[0.30,0.70]`); otherwise the prior threshold is retained.
The reload path logs a validation failure on rejection; the parameter-change
path rejects silently. -/
theorem threshold_validation_paths (t : ℤ) (cur : ℚ) :
    ((30 ≤ t ∧ t ≤ 70) ↔ (30/100 ≤ (t : ℚ) / 100 ∧ (t : ℚ) / 100 ≤ 70/100)) ∧
    (30 ≤ t ∧ t ≤ 70 →
      load_config_threshold t cur = ((t : ℚ) / 100, false) ∧
      on_parameter_changed_threshold t cur = ((t : ℚ) / 100, false)) ∧
    (¬ (30 ≤ t ∧ t ≤ 70) →
      load_config_threshold t cur = (cur, true) ∧
      on_parameter_changed_threshold t cur = (cur, false)) := by
  have hiff : (30 ≤ t ∧ t ≤ 70) ↔
      (30/100 ≤ (t : ℚ) / 100 ∧ (t : ℚ) / 100 ≤ 70/100) := by
    constructor
    · rintro ⟨h1, h2⟩
      constructor
      · rw [div_le_div_iff_of_pos_right (by norm_num : (0:ℚ) < 100)]
        exact_mod_cast h1
      · rw [div_le_div_iff_of_pos_right (by norm_num : (0:ℚ) < 100)]
        exact_mod_cast h2
    · rintro ⟨h1, h2⟩
      rw [div_le_div_iff_of_pos_right (by norm_num : (0:ℚ) < 100)] at h1 h2
      exact ⟨by exact_mod_cast h1, by exact_mod_cast h2⟩
  refine ⟨hiff, ?_, ?_⟩
  · intro h
    exact ⟨by rw [load_config_threshold, if_pos (hiff.mp h)],
           by rw [on_parameter_changed_threshold, if_pos h]⟩
  · intro h
    exact ⟨by rw [load_config_threshold, if_neg (fun hq => h (hiff.mpr hq))],
           by rw [on_parameter_changed_threshold, if_neg h]⟩

theorem threshold_validation_paths_witness :
    ((30 ≤ (80:ℤ) ∧ (80:ℤ) ≤ 70) ↔
      (30/100 ≤ ((80:ℤ) : ℚ) / 100 ∧ ((80:ℤ) : ℚ) / 100 ≤ 70/100)) ∧
    (¬ (30 ≤ (80:ℤ) ∧ (80:ℤ) ≤ 70)) ∧
    (load_config_threshold 80 (9/20) = (9/20, true) ∧
     on_parameter_changed_threshold 80 (9/20) = (9/20, false)) :=
  ⟨(threshold_validation_paths 80 (9/20)).1,
   by norm_num,
   (threshold_validation_paths 80 (9/20)).2.2 (by norm_num)⟩

/-! Section: Mel filter bank (lines 570-633)

The break-point computation (lines 579-598) converts frequencies through
`hz_to_mel`/`mel_to_hz` (transcendental, lines 524-533) and takes a clamped
floor; the resulting integer break bins are abstracted as a parameter
`bins : ℕ → ℕ`, with the source's clamp to `N_FFT_BINS - 1` (lines 595-597)
kept explicit.  The triangular rows, Slaney normalization, and the
`mel_filters_initialized` cache are embedded verbatim. -/

/-- One pre-normalization row of the filter bank (lines 600-615): rising edge
on `[left, center)`, falling edge on `[center, right)`, zero elsewhere (the
matrix is zeroed at line 577). -/
def melTriRaw (l c r k : ℕ) : ℚ :=
  if l ≤ k ∧ k < c then ((k : ℚ) - (l : ℚ)) / ((c : ℚ) - (l : ℚ))
  else if c ≤ k ∧ k < r then ((r : ℚ) - (k : ℚ)) / ((r : ℚ) - (c : ℚ))
  else 0

/-- Row area (lines 618-621): sum of the row over all `N_FFT_BINS` bins. -/
def melRowArea (l c r : ℕ) : ℚ := ∑ k ∈ Finset.range N_FFT_BINS, melTriRaw l c r k

/-- Slaney area normalization (lines 622-626): divide by the area if it is
positive. -/
def melRowNorm (l c r k : ℕ) : ℚ :=
  if 0 < melRowArea l c r then melTriRaw l c r k / melRowArea l c r
  else melTriRaw l c r k

/-- Clamp of a break bin to the last valid index (lines 595-597). -/
def clampBin (b : ℕ) : ℕ := min b (N_FFT_BINS - 1)

structure MelBankState where
  initialized : Bool
  bank : ℕ → ℕ → ℚ

/-- `init_mel_filter_bank` (lines 570-633) as a transition on the cached
state: if already initialized it returns immediately (lines 571-573),
otherwise it builds every row from the (clamped) break bins. -/
def init_mel_filter_bank (bins : ℕ → ℕ) (s : MelBankState) : MelBankState × Bool :=
  if s.initialized then (s, true)
  else
    ({ initialized := true
       bank := fun m k =>
         melRowNorm (clampBin (bins m)) (clampBin (bins (m+1)))
           (clampBin (bins (m+2))) k },
     true)

/-- The bank after the one-time build from a fresh (uninitialized) state. -/
def builtBank (bins : ℕ → ℕ) : MelBankState :=
  (init_mel_filter_bank bins { initialized := false, bank := fun _ _ => 0 }).1

lemma melTriRaw_nonneg (l c r k : ℕ) : 0 ≤ melTriRaw l c r k := by
  unfold melTriRaw
  split_ifs with h1 h2
  · obtain ⟨hl, hc⟩ := h1
    have hlk : (l : ℚ) ≤ k := by exact_mod_cast hl
    have hlc : (l : ℚ) < c := by exact_mod_cast lt_of_le_of_lt hl hc
    apply div_nonneg <;> linarith
  · obtain ⟨hc, hr⟩ := h2
    have hkr : (k : ℚ) < r := by exact_mod_cast hr
    have hcr : (c : ℚ) < r := by exact_mod_cast lt_of_le_of_lt hc hr
    have hck : (c : ℚ) ≤ k := by exact_mod_cast hc
    apply div_nonneg <;> linarith
  · exact le_refl 0

lemma melRowNorm_nonneg (l c r k : ℕ) : 0 ≤ melRowNorm l c r k := by
  unfold melRowNorm
  split_ifs with h
  · exact div_nonneg (melTriRaw_nonneg l c r k) (le_of_lt h)
  · exact melTriRaw_nonneg l c r k

/-- A nonzero pre-normalization entry lies strictly inside the rising edge or
anywhere on the falling edge. -/
lemma melTriRaw_ne_zero_bounds {l c r k : ℕ} (h : melTriRaw l c r k ≠ 0) :
    (l < k ∧ k < c) ∨ (c ≤ k ∧ k < r) := by
  unfold melTriRaw at h
  split_ifs at h with h1 h2
  · left
    refine ⟨?_, h1.2⟩
    rcases lt_or_eq_of_le h1.1 with hlt | heq
    · exact hlt
    · exfalso
      apply h
      rw [← heq, sub_self, zero_div]
  · right
    exact h2
  · exact absurd rfl h

lemma melTriRaw_pos (l c r k : ℕ)
    (h : (l < k ∧ k < c) ∨ (c ≤ k ∧ k < r)) : 0 < melTriRaw l c r k := by
  unfold melTriRaw
  rcases h with ⟨h1, h2⟩ | ⟨h1, h2⟩
  · rw [if_pos ⟨le_of_lt h1, h2⟩]
    have hlk : (l : ℚ) < k := by exact_mod_cast h1
    have hlc : (l : ℚ) < c := by exact_mod_cast lt_trans h1 h2
    apply div_pos <;> linarith
  · have hnc : ¬ (l ≤ k ∧ k < c) := by
      rintro ⟨_, hkc⟩
      exact absurd h1 (not_le.mpr hkc)
    rw [if_neg hnc, if_pos ⟨h1, h2⟩]
    have hkr : (k : ℚ) < r := by exact_mod_cast h2
    have hcr : (c : ℚ) < r := by exact_mod_cast lt_of_le_of_lt h1 h2
    have hck : (c : ℚ) ≤ k := by exact_mod_cast h1
    apply div_pos <;> linarith

/-- A row whose pre-normalization support is nonempty has positive area and
its normalized entries sum to exactly 1. -/
lemma melRowNorm_sum_one (l c r : ℕ) (hc : c ≤ N_FFT_BINS) (hr : r ≤ N_FFT_BINS)
    (hne : ∃ k, melTriRaw l c r k ≠ 0) :
    ∑ k ∈ Finset.range N_FFT_BINS, melRowNorm l c r k = 1 := by
  obtain ⟨k0, hk0⟩ := hne
  have hb := melTriRaw_ne_zero_bounds hk0
  have hk0lt : k0 < N_FFT_BINS := by
    rcases hb with ⟨_, h⟩ | ⟨_, h⟩ <;> omega
  have hpos : 0 < melTriRaw l c r k0 :=
    lt_of_le_of_ne (melTriRaw_nonneg l c r k0) (Ne.symm hk0)
  have harea : 0 < melRowArea l c r := by
    unfold melRowArea
    have hsingle :=
      Finset.single_le_sum (f := fun k => melTriRaw l c r k)
        (fun i _ => melTriRaw_nonneg l c r i) (Finset.mem_range.mpr hk0lt)
    linarith
  simp only [melRowNorm, if_pos harea]
  rw [← Finset.sum_div]
  exact div_self (ne_of_gt harea)

/-- Claim C6: after the one-time build, every entry of the filter bank is
non-negative; each row's pre-normalization support is a contiguous bin range
(the triangular rising/falling shape); each row with non-empty support sums to
exactly 1 after Slaney normalization; and every call on an
already-initialized state returns immediately with the state unchanged. -/
theorem mel_filter_bank_postconditions (bins : ℕ → ℕ) :
    (∀ m k, 0 ≤ (builtBank bins).bank m k) ∧
    (∀ m k1 k2 k3, k1 ≤ k2 → k2 ≤ k3 →
      melTriRaw (clampBin (bins m)) (clampBin (bins (m+1)))
        (clampBin (bins (m+2))) k1 ≠ 0 →
      melTriRaw (clampBin (bins m)) (clampBin (bins (m+1)))
        (clampBin (bins (m+2))) k3 ≠ 0 →
      melTriRaw (clampBin (bins m)) (clampBin (bins (m+1)))
        (clampBin (bins (m+2))) k2 ≠ 0) ∧
    (∀ m, (∃ k, melTriRaw (clampBin (bins m)) (clampBin (bins (m+1)))
        (clampBin (bins (m+2))) k ≠ 0) →
      ∑ k ∈ Finset.range N_FFT_BINS, (builtBank bins).bank m k = 1) ∧
    (builtBank bins).initialized = true ∧
    (∀ s : MelBankState, s.initialized = true →
      init_mel_filter_bank bins s = (s, true)) := by
  have hbank : ∀ m k, (builtBank bins).bank m k =
      melRowNorm (clampBin (bins m)) (clampBin (bins (m+1)))
        (clampBin (bins (m+2))) k := by
    intro m k
    unfold builtBank init_mel_filter_bank
    simp
  have hclamp : ∀ b, clampBin b ≤ N_FFT_BINS := by
    intro b
    unfold clampBin N_FFT_BINS N_FFT
    omega
  refine ⟨?_, ?_, ?_, rfl, ?_⟩
  · intro m k
    rw [hbank]
    exact melRowNorm_nonneg _ _ _ _
  · intro m k1 k2 k3 h12 h23 h1 h3
    have hb1 := melTriRaw_ne_zero_bounds h1
    have hb3 := melTriRaw_ne_zero_bounds h3
    exact ne_of_gt (melTriRaw_pos _ _ _ _ (by omega))
  · intro m hne
    have := melRowNorm_sum_one (clampBin (bins m)) (clampBin (bins (m+1)))
      (clampBin (bins (m+2))) (hclamp _) (hclamp _) hne
    calc ∑ k ∈ Finset.range N_FFT_BINS, (builtBank bins).bank m k
        = ∑ k ∈ Finset.range N_FFT_BINS,
            melRowNorm (clampBin (bins m)) (clampBin (bins (m+1)))
              (clampBin (bins (m+2))) k :=
          Finset.sum_congr rfl (fun k _ => hbank m k)
      _ = 1 := this
  · intro s hs
    unfold init_mel_filter_bank
    rw [if_pos hs]

theorem mel_filter_bank_postconditions_witness :
    (melTriRaw (clampBin 0) (clampBin 1) (clampBin 2) 1 ≠ 0) ∧
    (∑ k ∈ Finset.range N_FFT_BINS, (builtBank (fun i => i)).bank 0 k = 1) ∧
    (init_mel_filter_bank (fun i => i) { initialized := true, bank := fun _ _ => 0 }
      = ({ initialized := true, bank := fun _ _ => 0 }, true)) :=
  ⟨by norm_num [melTriRaw, clampBin, N_FFT_BINS, N_FFT],
   (mel_filter_bank_postconditions (fun i => i)).2.2.1 0
     ⟨1, by norm_num [melTriRaw, clampBin, N_FFT_BINS, N_FFT]⟩,
   (mel_filter_bank_postconditions (fun i => i)).2.2.2.2 _ rfl⟩

/-! Section: Feature extractor: `compute_mel_spectrogram` (lines 636-686)

The Hann window coefficients (`cosf`, line 559), the FFT plus squared
magnitude (lines 659-665, library code `fftwf_execute`), and `log10f` are
abstracted as parameters `hann`, `analyze` and `log10f`; the framing loop,
the zero-padding conditional, the filter dot product, the dB conversion and
the clamped normalization are embedded verbatim.  The output matrix is the
flat function `ℕ → ℚ` indexed by `frame * N_MELS + mel` (line 679), zeroed
before the loop (line 645), paired with the final `frame_count`. -/

/-- The windowed frame loaded into `fft_in` (lines 651-657): sample
`audio[start+i] * hann[i]` when in range, zero-padding past the end. -/
def frameSignal (hann : ℕ → ℚ) (audio : ℕ → ℚ) (n start : ℕ) : ℕ → ℚ :=
  fun i => if start + i < n then audio (start + i) * hann i else 0

/-- One mel value of one frame (lines 667-678): filter-row dot product with
the power spectrum, `10·log10(max(e,1e-10))`, then the normalization and the
two sequential clamps written exactly as in the source. -/
def melValueAt (hann : ℕ → ℚ) (log10f : ℚ → ℚ) (analyze : (ℕ → ℚ) → ℕ → ℚ)
    (bank : ℕ → ℕ → ℚ) (audio : ℕ → ℚ) (n start m : ℕ) : ℚ :=
  let ps := analyze (frameSignal hann audio n start)
  let mel_energy := ∑ k ∈ Finset.range N_FFT_BINS, bank m k * ps k
  let mel_db := 10 * log10f (max mel_energy (1/10000000000))
  let mel_normalized := (mel_db - (-80)) / (0 - (-80))
  let mel_clamped := if mel_normalized < 0 then 0 else mel_normalized
  if mel_clamped > 1 then 1 else mel_clamped

/-- Writing one frame row into the flat output (line 679). -/
def writeRow (out : ℕ → ℚ) (fc : ℕ) (row : ℕ → ℚ) : ℕ → ℚ :=
  fun j => if fc * N_MELS ≤ j ∧ j < fc * N_MELS + N_MELS then row (j - fc * N_MELS) else out j

/-- The frame loop of line 650:
`for (start = 0; start < (int)num_samples - N_FFT && frame_count < N_FRAMES;
start += HOP_LENGTH)`.  Since `frame_count` increments every iteration and the
loop requires `frame_count < N_FRAMES`, the loop runs at most `N_FRAMES`
times; the structural `fuel` argument (started at `N_FRAMES`) carries that
bound, and the loop guard is re-checked exactly as in the source. -/
def melLoop (rowAt : ℕ → ℕ → ℚ) (n : ℕ) :
    ℕ → ℕ → ℕ → (ℕ → ℚ) → (ℕ → ℚ) × ℕ
  | 0, _, fc, out => (out, fc)
  | fuel + 1, start, fc, out =>
    if (start : ℤ) < (n : ℤ) - (N_FFT : ℤ) ∧ fc < N_FRAMES then
      melLoop rowAt n fuel (start + HOP_LENGTH) (fc + 1)
        (writeRow out fc (rowAt start))
    else (out, fc)

/-- `compute_mel_spectrogram` (lines 638-686): on workspace-initialization
failure the output is zeroed and no frames are produced (lines 639-643);
otherwise the frame loop runs over the zeroed output.  Returns the flat
feature matrix and the final `frame_count`. -/
def compute_mel_spectrogram (initOk : Bool) (hann : ℕ → ℚ) (log10f : ℚ → ℚ)
    (analyze : (ℕ → ℚ) → ℕ → ℚ) (bank : ℕ → ℕ → ℚ) (audio : ℕ → ℚ) (n : ℕ) :
    (ℕ → ℚ) × ℕ :=
  if !initOk then (fun _ => 0, 0)
  else
    melLoop (fun start m => melValueAt hann log10f analyze bank audio n start m) n
      N_FRAMES 0 0 (fun _ => 0)

/-- Spec-side framing from the claim's words: a frame at offset `f·HOP_LENGTH`
is produced whenever fewer than `N_FRAMES` frames have been made and the
buffer is not exhausted at that offset (zero-padding covering any samples past
the end). -/
def specFrameProduced (n f : ℕ) : Prop := f < N_FRAMES ∧ f * HOP_LENGTH < n

/-- Invariant characterization of the frame loop: starting at
`start = fc·HOP_LENGTH` with `fc + fuel = N_FRAMES`, row `f` of the final
output holds the frame value exactly when `fc ≤ f < N_FRAMES` and
`f·HOP_LENGTH + N_FFT < n`, and the final frame count counts exactly those
frames. -/
lemma melLoop_characterization (rowAt : ℕ → ℕ → ℚ) (n : ℕ) :
    ∀ fuel fc start out, fc + fuel = N_FRAMES → start = fc * HOP_LENGTH →
      (∀ f m, m < N_MELS →
        (melLoop rowAt n fuel start fc out).1 (f * N_MELS + m) =
          if fc ≤ f ∧ f < N_FRAMES ∧ f * HOP_LENGTH + N_FFT < n
          then rowAt (f * HOP_LENGTH) m
          else out (f * N_MELS + m)) ∧
      (∀ f, (f < (melLoop rowAt n fuel start fc out).2 ↔
          f < fc ∨ (fc ≤ f ∧ f < N_FRAMES ∧ f * HOP_LENGTH + N_FFT < n))) := by
  intro fuel
  induction fuel with
  | zero =>
    intro fc start out hfc hstart
    have hfc160 : fc = N_FRAMES := by omega
    constructor
    · intro f m hm
      rw [melLoop]
      have : ¬ (fc ≤ f ∧ f < N_FRAMES ∧ f * HOP_LENGTH + N_FFT < n) := by omega
      rw [if_neg this]
    · intro f
      rw [melLoop]
      simp only
      omega
  | succ fuel ih =>
    intro fc start out hfc hstart
    rw [melLoop]
    by_cases hcond : (start : ℤ) < (n : ℤ) - (N_FFT : ℤ) ∧ fc < N_FRAMES
    · rw [if_pos hcond]
      have hfit : fc * HOP_LENGTH + N_FFT < n := by
        have h1 := hcond.1
        rw [hstart] at h1
        omega
      have hstep : start + HOP_LENGTH = (fc + 1) * HOP_LENGTH := by
        rw [hstart]; ring
      obtain ⟨ih1, ih2⟩ := ih (fc + 1) (start + HOP_LENGTH)
        (writeRow out fc (rowAt start)) (by omega) hstep
      constructor
      · intro f m hm
        rw [ih1 f m hm]
        by_cases hf : f = fc
        · subst hf
          have hgoal : f ≤ f ∧ f < N_FRAMES ∧ f * HOP_LENGTH + N_FFT < n :=
            ⟨le_refl f, hcond.2, hfit⟩
          have hih : ¬ (f + 1 ≤ f ∧ f < N_FRAMES ∧ f * HOP_LENGTH + N_FFT < n) := by
            omega
          rw [if_neg hih, if_pos hgoal]
          unfold writeRow
          have hidx : f * N_MELS ≤ f * N_MELS + m ∧
              f * N_MELS + m < f * N_MELS + N_MELS := by omega
          rw [if_pos hidx, hstart]
          congr 1
          omega
        · have hcondeq : (fc + 1 ≤ f ∧ f < N_FRAMES ∧ f * HOP_LENGTH + N_FFT < n) ↔
              (fc ≤ f ∧ f < N_FRAMES ∧ f * HOP_LENGTH + N_FFT < n) := by omega
          by_cases hc2 : fc ≤ f ∧ f < N_FRAMES ∧ f * HOP_LENGTH + N_FFT < n
          · rw [if_pos (hcondeq.mpr hc2), if_pos hc2]
          · rw [if_neg (fun h => hc2 (hcondeq.mp h)), if_neg hc2]
            unfold writeRow
            have hidx : ¬ (fc * N_MELS ≤ f * N_MELS + m ∧
                f * N_MELS + m < fc * N_MELS + N_MELS) := by
              simp only [N_MELS] at hm ⊢
              omega
            rw [if_neg hidx]
      · intro f
        rw [ih2 f]
        rcases Nat.lt_trichotomy f fc with h | h | h
        · omega
        · subst h
          omega
        · omega
    · rw [if_neg hcond]
      have hnofit : ¬ (fc * HOP_LENGTH + N_FFT < n) ∨ ¬ (fc < N_FRAMES) := by
        by_contra hcontra
        push_neg at hcontra
        apply hcond
        constructor
        · rw [hstart]
          omega
        · exact hcontra.2
      constructor
      · intro f m hm
        simp only
        have : ¬ (fc ≤ f ∧ f < N_FRAMES ∧ f * HOP_LENGTH + N_FFT < n) := by
          rintro ⟨h1, h2, h3⟩
          have hmono : fc * HOP_LENGTH ≤ f * HOP_LENGTH :=
            Nat.mul_le_mul_right _ h1
          omega
        rw [if_neg this]
      · intro f
        simp only
        have hmono : fc ≤ f → fc * HOP_LENGTH ≤ f * HOP_LENGTH :=
          fun h => Nat.mul_le_mul_right _ h
        constructor
        · intro h
          exact Or.inl h
        · rintro (h | ⟨h1, h2, h3⟩)
          · exact h
          · exfalso
            have := hmono h1
            omega

/-- The source's dB conversion and sequential clamps (lines 673-677) equal the
spec's linear map of `[-80,0]` onto `[0,1]` with clamping. -/
lemma melValueAt_formula (hann : ℕ → ℚ) (log10f : ℚ → ℚ)
    (analyze : (ℕ → ℚ) → ℕ → ℚ) (bank : ℕ → ℕ → ℚ) (audio : ℕ → ℚ)
    (n start m : ℕ) :
    melValueAt hann log10f analyze bank audio n start m =
      min 1 (max 0 ((10 * log10f (max (∑ k ∈ Finset.range N_FFT_BINS,
        bank m k * analyze (frameSignal hann audio n start) k)
        (1/10000000000)) + 80) / 80)) := by
  unfold melValueAt
  dsimp only
  set y : ℚ := (10 * log10f (max (∑ k ∈ Finset.range N_FFT_BINS,
    bank m k * analyze (frameSignal hann audio n start) k) (1/10000000000)) - (-80)) / (0 - (-80))
    with hy
  have hy' : y = (10 * log10f (max (∑ k ∈ Finset.range N_FFT_BINS,
      bank m k * analyze (frameSignal hann audio n start) k) (1/10000000000)) + 80) / 80 := by
    rw [hy]
    norm_num
  rw [← hy']
  by_cases h0 : y < 0
  · rw [if_pos h0]
    have h1 : ¬ ((0:ℚ) > 1) := by norm_num
    rw [if_neg h1, max_eq_left (le_of_lt h0), min_eq_right]
    norm_num
  · rw [if_neg h0]
    push_neg at h0
    rw [max_eq_right h0]
    by_cases h1 : y > 1
    · rw [if_pos h1, min_eq_left (le_of_lt h1)]
    · rw [if_neg h1, min_eq_right (not_lt.mp h1)]

/-- Claim C3 counterexample: with a buffer of exactly `N_FFT = 1024` samples, a
full frame fits at offset 0 with no padding needed, and the claimed framing
("stop only when the buffer is exhausted or `N_FRAMES` frames are produced,
zero-padding past the end") produces it; but the loop guard
`start < (int)num_samples - N_FFT` (line 650) is already false at `start = 0`,
so the code produces zero frames. -/
theorem framing_stops_before_buffer_end :
    specFrameProduced 1024 0 ∧
    (compute_mel_spectrogram true (fun _ => 1) (fun _ => 0) (fun _ _ => 0)
      (fun _ _ => 0) (fun _ => 1) 1024).2 = 0 := by
  constructor
  · exact ⟨by norm_num [N_FRAMES], by norm_num [HOP_LENGTH]⟩
  · have h := (melLoop_characterization
      (fun start m => melValueAt (fun _ => 1) (fun _ => 0) (fun _ _ => 0)
        (fun _ _ => 0) (fun _ => 1) 1024 start m) 1024
      N_FRAMES 0 0 (fun _ => 0) (by omega) (by omega)).2 0
    unfold compute_mel_spectrogram
    simp only [Bool.not_true, Bool.false_eq_true, if_false]
    simp only [N_FRAMES, N_FFT, HOP_LENGTH] at h ⊢
    omega

/-- Claim C3 amended: frames are produced at offsets `0, HOP_LENGTH, …`, but
the loop stops at the first offset from which a full window does not fit
*strictly inside* the buffer (`f·HOP_LENGTH + N_FFT < n`), or once `N_FRAMES`
frames are made — so a frame that would need zero-padding (or even one exactly
reaching the buffer end) is never produced and the padding branch is
unreachable.  Each produced row holds the filter-row dot product with the
power spectrum, converted as `10·log10(max(e,1e-10))` and mapped linearly from
`[-80,0]` dB onto `[0,1]` with clamping; rows for frames not produced remain
zero, and the final frame count counts exactly the produced frames. -/
theorem mel_framing_and_values (hann : ℕ → ℚ) (log10f : ℚ → ℚ)
    (analyze : (ℕ → ℚ) → ℕ → ℚ) (bank : ℕ → ℕ → ℚ) (audio : ℕ → ℚ)
    (n f m : ℕ) (hm : m < N_MELS) :
    (compute_mel_spectrogram true hann log10f analyze bank audio n).1
        (f * N_MELS + m) =
      (if f < N_FRAMES ∧ f * HOP_LENGTH + N_FFT < n
       then min 1 (max 0 ((10 * log10f (max (∑ k ∈ Finset.range N_FFT_BINS,
         bank m k * analyze (frameSignal hann audio n (f * HOP_LENGTH)) k)
         (1/10000000000)) + 80) / 80))
       else 0) ∧
    (f < (compute_mel_spectrogram true hann log10f analyze bank audio n).2 ↔
      (f < N_FRAMES ∧ f * HOP_LENGTH + N_FFT < n)) := by
  obtain ⟨h1, h2⟩ := melLoop_characterization
    (fun start m => melValueAt hann log10f analyze bank audio n start m) n
    N_FRAMES 0 0 (fun _ => 0) (by omega) (by omega)
  unfold compute_mel_spectrogram
  simp only [Bool.not_true, Bool.false_eq_true, if_false]
  constructor
  · rw [h1 f m hm]
    by_cases hc : f < N_FRAMES ∧ f * HOP_LENGTH + N_FFT < n
    · rw [if_pos ⟨Nat.zero_le f, hc.1, hc.2⟩, if_pos hc]
      exact melValueAt_formula hann log10f analyze bank audio n (f * HOP_LENGTH) m
    · rw [if_neg (fun h => hc ⟨h.2.1, h.2.2⟩), if_neg hc]
  · rw [h2 f]
    omega

theorem mel_framing_and_values_witness :
    (0 < N_MELS) ∧
    ((compute_mel_spectrogram true (fun _ => 1) (fun _ => 0) (fun _ _ => 0)
        (fun _ _ => 0) (fun _ => 1) 2048).1 (0 * N_MELS + 0) =
      (if 0 < N_FRAMES ∧ 0 * HOP_LENGTH + N_FFT < 2048
       then min 1 (max 0 ((10 * (fun _ : ℚ => (0:ℚ)) (max (∑ k ∈ Finset.range N_FFT_BINS,
         (fun _ _ : ℕ => (0:ℚ)) 0 k * (fun _ _ => (0:ℚ)) (frameSignal (fun _ => 1) (fun _ => 1) 2048 (0 * HOP_LENGTH)) k)
         (1/10000000000)) + 80) / 80))
       else 0)) :=
  ⟨by norm_num [N_MELS],
   (mel_framing_and_values (fun _ => 1) (fun _ => 0) (fun _ _ => 0) (fun _ _ => 0)
     (fun _ => 1) 2048 0 0 (by norm_num [N_MELS])).1⟩

/-! Section: Ingest accumulator, decision engine and notification
(lines 365-485, 710-785, 790-846, 1095-1107)

`float` audio samples are `ℚ`; `time_t` is `ℤ`.  The external pieces are
abstracted as booleans/parameters: `sendOk` (curl transport success, line
464), `inferOk` (`larodRunJob` success, line 742), `prob2` (the softmax
output of the inference engine — its computation from the raw int8 outputs is
the separately-modelled `postprocess`), and the extractor parameters from the
previous section. -/

structure EmailConfig where
  email_enabled : Bool
  has_username : Bool
  has_recipient : Bool

structure DetectorState where
  last_email_time : ℤ
  inference_count : ℕ
  detection_count : ℕ

/-- `send_email_notification` (lines 365-485): no-op unless email is enabled
and credentials are configured (line 366); rate-limited when less than
`EMAIL_RATE_LIMIT_SECONDS` have elapsed (line 372); `last_email_time` is
updated only when the transport succeeds (line 468).  Returns (sent, new
`last_email_time`). -/
def send_email_notification (cfg : EmailConfig) (sendOk : Bool) (now last : ℤ) :
    Bool × ℤ :=
  if !cfg.email_enabled || !cfg.has_username || !cfg.has_recipient then (false, last)
  else if now - last < EMAIL_RATE_LIMIT_SECONDS then (false, last)
  else if sendOk then (true, now) else (false, last)

/-- The ambient inputs of one pass of `process_gunshot_detection`. -/
structure PassEnv where
  ml_ready : Bool
  initOk : Bool
  hann : ℕ → ℚ
  log10f : ℚ → ℚ
  analyze : (ℕ → ℚ) → ℕ → ℚ
  bank : ℕ → ℕ → ℚ
  inferOk : Bool
  prob2 : ℚ
  threshold : ℚ
  cfg : EmailConfig
  sendOk : Bool
  now : ℤ

/-- Observable record of what one pass did. -/
structure PassOutcome where
  notReady : Bool
  skippedQuiet : Bool
  ranExtraction : Bool
  ranQuantize : Bool
  ranInference : Bool
  detectedFlag : Bool
  loggedDetection : Bool
  eventEmitted : Bool
  features : ℕ → ℚ
  loudnessSq : ℚ

def noPass : PassOutcome :=
  { notReady := false, skippedQuiet := false, ranExtraction := false,
    ranQuantize := false, ranInference := false, detectedFlag := false,
    loggedDetection := false, eventEmitted := false, features := fun _ => 0,
    loudnessSq := 0 }

/-- Mean square of the first `n` samples (lines 716-720 compute
`rms = sqrt` of this; the gate of line 724 compares `rms < 0.001`,
equivalently `meanSq < MIN_RMS_SQ`). -/
def meanSq (a : ℕ → ℚ) (n : ℕ) : ℚ := (∑ i ∈ Finset.range n, a i * a i) / n

/-- `process_gunshot_detection` (lines 710-785): bail out when the pipeline
is not ready (line 711); compute the loudness over all `n` samples it was
handed and skip quiet audio (lines 716-726); otherwise extract features
(line 731), quantize them (lines 734-738, always), submit the inference job
(line 742), and on success count the pass, apply the threshold, count and log
a detection, and (if email is enabled) attempt the notification
(lines 744-776).  An inference failure abandons the pass (lines 780-784). -/
def process_gunshot_detection (env : PassEnv) (audio : ℕ → ℚ) (n : ℕ)
    (s : DetectorState) : DetectorState × PassOutcome :=
  if !env.ml_ready then (s, { noPass with notReady := true })
  else if meanSq audio n < MIN_RMS_SQ then
    (s, { noPass with skippedQuiet := true, loudnessSq := meanSq audio n })
  else
    let feats := (compute_mel_spectrogram env.initOk env.hann env.log10f
      env.analyze env.bank audio n).1
    if env.inferOk then
      if env.threshold < env.prob2 then
        if env.cfg.email_enabled then
          ({ last_email_time :=
               (send_email_notification env.cfg env.sendOk env.now s.last_email_time).2,
             inference_count := s.inference_count + 1,
             detection_count := s.detection_count + 1 },
           { noPass with
              ranExtraction := true
              ranQuantize := true
              ranInference := true
              detectedFlag := true
              loggedDetection := true
              eventEmitted :=
                (send_email_notification env.cfg env.sendOk env.now s.last_email_time).1
              features := feats
              loudnessSq := meanSq audio n })
        else
          ({ s with
              inference_count := s.inference_count + 1
              detection_count := s.detection_count + 1 },
           { noPass with
              ranExtraction := true
              ranQuantize := true
              ranInference := true
              detectedFlag := true
              loggedDetection := true
              features := feats
              loudnessSq := meanSq audio n })
      else
        ({ s with inference_count := s.inference_count + 1 },
         { noPass with
            ranExtraction := true
            ranQuantize := true
            ranInference := true
            features := feats
            loudnessSq := meanSq audio n })
    else
      (s, { noPass with
             ranExtraction := true
             ranQuantize := true
             ranInference := true
             features := feats
             loudnessSq := meanSq audio n })

/-- The accumulation buffer: contents plus `samples_accumulated`. -/
structure AccumState where
  buf : ℕ → ℚ
  filled : ℕ

/-- The append guard of lines 824-827: copy the chunk at offset `filled` iff
it fits entirely, else leave the state untouched. -/
def accum_append (s : AccumState) (chunk : ℕ → ℚ) (len : ℕ) : AccumState :=
  if s.filled + len ≤ AUDIO_BUFFER_SIZE then
    { buf := fun i =>
        if s.filled ≤ i ∧ i < s.filled + len then chunk (i - s.filled) else s.buf i,
      filled := s.filled + len }
  else s

structure SysState where
  acc : AccumState
  det : DetectorState

/-- One target-stream audio callback (lines 811-841): append when the chunk
fits; once `filled ≥ INFERENCE_THRESHOLD`, consume by calling
`process_gunshot_detection(audio_buffer, AUDIO_BUFFER_SIZE)` (line 838 — note:
the *whole* buffer, not the filled prefix) and reset `filled` to 0
(line 839). -/
def on_process_chunk (env : PassEnv) (chunk : ℕ → ℚ) (len : ℕ) (st : SysState) :
    SysState × Option PassOutcome :=
  if !env.ml_ready then (st, none)
  else if st.acc.filled + len ≤ AUDIO_BUFFER_SIZE then
    if INFERENCE_THRESHOLD ≤ (accum_append st.acc chunk len).filled then
      ({ acc := { buf := (accum_append st.acc chunk len).buf, filled := 0 },
         det := (process_gunshot_detection env (accum_append st.acc chunk len).buf
           AUDIO_BUFFER_SIZE st.det).1 },
       some (process_gunshot_detection env (accum_append st.acc chunk len).buf
         AUDIO_BUFFER_SIZE st.det).2)
    else
      ({ acc := accum_append st.acc chunk len, det := st.det }, none)
  else (st, none)

/-- Startup sequence of `main` (lines 1095-1107): LAROD and both workspace
initializations must succeed before `ml_ready` is set; a failure exits
(`return 1`), modelled as `none`. -/
def main_startup (larodOk fftOk melOk : Bool) : Option Bool :=
  if !larodOk then none
  else if !fftOk || !melOk then none
  else some true

/-- Test fixture: a fully-configured environment at time `t` with
`prob_positive = 0.50` and threshold `0.45`. -/
def mkRateEnv (t : ℤ) : PassEnv :=
  { ml_ready := true, initOk := true, hann := fun _ => 0, log10f := fun _ => 0,
    analyze := fun _ _ => 0, bank := fun _ _ => 0, inferOk := true,
    prob2 := 1/2, threshold := 9/20, cfg := ⟨true, true, true⟩,
    sendOk := true, now := t }

/-- Test fixture: one pass over constant loud audio of the full buffer size. -/
def ratePass (t : ℤ) (s : DetectorState) : DetectorState × PassOutcome :=
  process_gunshot_detection (mkRateEnv t) (fun _ => 1) AUDIO_BUFFER_SIZE s

/-- Test fixture: the pass executed by a consuming callback. -/
def consumedPass (env : PassEnv) (chunk : ℕ → ℚ) (len : ℕ) (st : SysState) :
    DetectorState × PassOutcome :=
  process_gunshot_detection env (accum_append st.acc chunk len).buf
    AUDIO_BUFFER_SIZE st.det

/-! Section: Helper lemmas for the pass model -/

lemma meanSq_one (n : ℕ) (hn : n ≠ 0) : meanSq (fun _ => 1) n = 1 := by
  unfold meanSq
  have hc : ∀ i ∈ Finset.range n, (fun _ : ℕ => (1:ℚ)) i * (fun _ : ℕ => (1:ℚ)) i = 1 := by
    intro i _
    norm_num
  rw [Finset.sum_congr rfl hc, Finset.sum_const, Finset.card_range, nsmul_eq_mul, mul_one]
  exact div_self (Nat.cast_ne_zero.mpr hn)

lemma sum_sq_step (f : ℕ → ℚ) (c : ℚ) (m n : ℕ) (hmn : m ≤ n)
    (h1 : ∀ i, i < m → f i = c) (h2 : ∀ i, m ≤ i → f i = 0) :
    ∑ i ∈ Finset.range n, f i * f i = (m : ℚ) * (c * c) := by
  rw [← Finset.sum_range_add_sum_Ico _ hmn]
  have ha : ∑ i ∈ Finset.range m, f i * f i = (m : ℚ) * (c * c) := by
    have hcong : ∀ i ∈ Finset.range m, f i * f i = c * c := by
      intro i hi
      rw [h1 i (Finset.mem_range.mp hi)]
    rw [Finset.sum_congr rfl hcong, Finset.sum_const, Finset.card_range, nsmul_eq_mul]
  have hb : ∑ i ∈ Finset.Ico m n, f i * f i = 0 := by
    apply Finset.sum_eq_zero
    intro i hi
    rw [h2 i (Finset.mem_Ico.mp hi).1]
    ring
  rw [ha, hb, add_zero]

lemma send_first_ok (now last : ℤ) (h : EMAIL_RATE_LIMIT_SECONDS ≤ now - last) :
    send_email_notification ⟨true, true, true⟩ true now last = (true, now) := by
  unfold send_email_notification
  simp [not_lt.mpr h]

lemma send_rate_limited (cfg : EmailConfig) (sendOk : Bool) (now last : ℤ)
    (h : now - last < EMAIL_RATE_LIMIT_SECONDS) :
    send_email_notification cfg sendOk now last = (false, last) := by
  unfold send_email_notification
  by_cases h1 : (!cfg.email_enabled || !cfg.has_username || !cfg.has_recipient) = true
  · rw [if_pos h1]
  · rw [if_neg h1, if_pos h]

lemma process_skip (env : PassEnv) (audio : ℕ → ℚ) (n : ℕ) (s : DetectorState)
    (hml : env.ml_ready = true) (hq : meanSq audio n < MIN_RMS_SQ) :
    process_gunshot_detection env audio n s =
      (s, { noPass with skippedQuiet := true, loudnessSq := meanSq audio n }) := by
  unfold process_gunshot_detection
  rw [hml]
  simp [hq]

lemma process_not_skipped (env : PassEnv) (audio : ℕ → ℚ) (n : ℕ) (s : DetectorState)
    (hml : env.ml_ready = true) (hq : ¬ meanSq audio n < MIN_RMS_SQ) :
    (process_gunshot_detection env audio n s).2.skippedQuiet = false ∧
    (process_gunshot_detection env audio n s).2.ranExtraction = true ∧
    (process_gunshot_detection env audio n s).2.ranQuantize = true ∧
    (process_gunshot_detection env audio n s).2.ranInference = true ∧
    (process_gunshot_detection env audio n s).2.features =
      (compute_mel_spectrogram env.initOk env.hann env.log10f env.analyze
        env.bank audio n).1 ∧
    (process_gunshot_detection env audio n s).2.loudnessSq = meanSq audio n := by
  unfold process_gunshot_detection
  rw [hml]
  simp only [Bool.not_true, Bool.false_eq_true, if_false, if_neg hq]
  by_cases hinf : env.inferOk <;>
    by_cases hdet : env.threshold < env.prob2 <;>
      by_cases hem : env.cfg.email_enabled <;>
        simp [hinf, hdet, hem, noPass]

lemma process_detect (env : PassEnv) (audio : ℕ → ℚ) (n : ℕ) (s : DetectorState)
    (hml : env.ml_ready = true) (hq : ¬ meanSq audio n < MIN_RMS_SQ)
    (hinf : env.inferOk = true) (hdet : env.threshold < env.prob2)
    (hem : env.cfg.email_enabled = true) :
    process_gunshot_detection env audio n s =
      ({ last_email_time :=
           (send_email_notification env.cfg env.sendOk env.now s.last_email_time).2,
         inference_count := s.inference_count + 1,
         detection_count := s.detection_count + 1 },
       { noPass with
          ranExtraction := true
          ranQuantize := true
          ranInference := true
          detectedFlag := true
          loggedDetection := true
          eventEmitted :=
            (send_email_notification env.cfg env.sendOk env.now s.last_email_time).1
          features := (compute_mel_spectrogram env.initOk env.hann env.log10f
            env.analyze env.bank audio n).1
          loudnessSq := meanSq audio n }) := by
  unfold process_gunshot_detection
  rw [hml]
  simp [hq, hinf, hdet, hem]

/-- One callback keeps `filled` within capacity. -/
lemma on_chunk_filled_le (env : PassEnv) (c : ℕ → ℚ) (l : ℕ) (st : SysState)
    (h : st.acc.filled ≤ AUDIO_BUFFER_SIZE) :
    ((on_process_chunk env c l st).1).acc.filled ≤ AUDIO_BUFFER_SIZE := by
  unfold on_process_chunk
  by_cases hml : (!env.ml_ready) = true
  · rw [if_pos hml]
    exact h
  · rw [if_neg hml]
    by_cases hfit : st.acc.filled + l ≤ AUDIO_BUFFER_SIZE
    · rw [if_pos hfit]
      by_cases hth : INFERENCE_THRESHOLD ≤ (accum_append st.acc c l).filled
      · rw [if_pos hth]
        exact Nat.zero_le _
      · rw [if_neg hth]
        unfold accum_append
        rw [if_pos hfit]
        exact hfit
    · rw [if_neg hfit]
      exact h

/-- Claim C5: the append is atomic and guarded — a chunk is copied exactly when
it fits (`filled + len ≤ capacity`), writing the chunk at offset `filled` and
leaving earlier contents alone; an oversized chunk leaves the state (contents
and count) completely unchanged; `filled ≤ capacity` after any sequence of
callbacks; filling exactly to capacity succeeds; and appending one more
element to a full buffer is rejected without mutation. -/
theorem accumulator_atomic_append (s : AccumState) (chunk : ℕ → ℚ) (len : ℕ)
    (env : PassEnv) (chunks : List ((ℕ → ℚ) × ℕ)) (st0 : SysState)
    (hstart : st0.acc.filled ≤ AUDIO_BUFFER_SIZE) :
    (s.filled + len ≤ AUDIO_BUFFER_SIZE →
      (accum_append s chunk len).filled = s.filled + len ∧
      (∀ i, s.filled ≤ i → i < s.filled + len →
        (accum_append s chunk len).buf i = chunk (i - s.filled)) ∧
      (∀ i, i < s.filled → (accum_append s chunk len).buf i = s.buf i)) ∧
    (AUDIO_BUFFER_SIZE < s.filled + len → accum_append s chunk len = s) ∧
    ((List.foldl (fun st cl => (on_process_chunk env cl.1 cl.2 st).1) st0
        chunks).acc.filled ≤ AUDIO_BUFFER_SIZE) ∧
    (s.filled = 0 → (accum_append s chunk AUDIO_BUFFER_SIZE).filled = AUDIO_BUFFER_SIZE) ∧
    (s.filled = AUDIO_BUFFER_SIZE → accum_append s chunk 1 = s) := by
  refine ⟨?_, ?_, ?_, ?_, ?_⟩
  · intro h
    unfold accum_append
    rw [if_pos h]
    refine ⟨rfl, ?_, ?_⟩
    · intro i h1 h2
      simp only
      rw [if_pos ⟨h1, h2⟩]
    · intro i h1
      simp only
      rw [if_neg (by omega)]
  · intro h
    unfold accum_append
    rw [if_neg (by omega)]
  · induction chunks generalizing st0 with
    | nil => exact hstart
    | cons c cs ih =>
      rw [List.foldl_cons]
      exact ih _ (on_chunk_filled_le env c.1 c.2 st0 hstart)
  · intro h
    unfold accum_append
    rw [if_pos (by omega)]
    simp only
    omega
  · intro h
    unfold accum_append
    rw [if_neg (by omega)]

theorem accumulator_atomic_append_witness :
    ((⟨⟨fun _ => 0, 0⟩, ⟨0, 0, 0⟩⟩ : SysState).acc.filled ≤ AUDIO_BUFFER_SIZE) ∧
    ((0 : ℕ) + 3 ≤ AUDIO_BUFFER_SIZE) ∧
    ((accum_append ⟨fun _ => 0, 0⟩ (fun _ => 1) 3).filled = 0 + 3) ∧
    ((List.foldl (fun st cl => (on_process_chunk (mkRateEnv 0) cl.1 cl.2 st).1)
      (⟨⟨fun _ => 0, 0⟩, ⟨0, 0, 0⟩⟩ : SysState)
      [(fun _ => 1, 5)]).acc.filled ≤ AUDIO_BUFFER_SIZE) := by
  have h := accumulator_atomic_append ⟨fun _ => 0, 0⟩ (fun _ => 1) 3 (mkRateEnv 0)
    [(fun _ => 1, 5)] ⟨⟨fun _ => 0, 0⟩, ⟨0, 0, 0⟩⟩
    (by norm_num [AUDIO_BUFFER_SIZE])
  exact ⟨by norm_num [AUDIO_BUFFER_SIZE],
         by norm_num [AUDIO_BUFFER_SIZE],
         (h.1 (by norm_num [AUDIO_BUFFER_SIZE])).1,
         h.2.2.1⟩

/-- Claim C1: with threshold 0.45 and `prob_positive = 0.50` on each pass, two
consecutive passes with no elapsed cooldown emit exactly one Detection Event
(the second is rate-limited by the 120 s cooldown); the same two passes 121 s
apart emit two events.  Detection counting, inference counting and the
detection log happen on every above-threshold pass, whether or not the event
is suppressed.  (`t0` is the wall-clock time of the first pass; the hypothesis
lets the first event clear the initial `last_email_time = 0`.) -/
theorem detection_event_rate_limiting (t0 : ℤ) (ht : EMAIL_RATE_LIMIT_SECONDS ≤ t0) :
    ((ratePass t0 ⟨0, 0, 0⟩).2.eventEmitted = true ∧
     (ratePass t0 (ratePass t0 ⟨0, 0, 0⟩).1).2.eventEmitted = false) ∧
    (ratePass (t0 + 121) (ratePass t0 ⟨0, 0, 0⟩).1).2.eventEmitted = true ∧
    ((ratePass t0 (ratePass t0 ⟨0, 0, 0⟩).1).1.detection_count = 2 ∧
     (ratePass (t0 + 121) (ratePass t0 ⟨0, 0, 0⟩).1).1.detection_count = 2 ∧
     (ratePass t0 (ratePass t0 ⟨0, 0, 0⟩).1).1.inference_count = 2 ∧
     (ratePass t0 (ratePass t0 ⟨0, 0, 0⟩).1).2.loggedDetection = true ∧
     (ratePass t0 (ratePass t0 ⟨0, 0, 0⟩).1).2.detectedFlag = true) ∧
    (∀ (env : PassEnv) (audio : ℕ → ℚ) (n : ℕ) (s : DetectorState),
      env.ml_ready = true → env.inferOk = true → env.threshold < env.prob2 →
      ¬ meanSq audio n < MIN_RMS_SQ →
      (process_gunshot_detection env audio n s).1.detection_count =
        s.detection_count + 1 ∧
      (process_gunshot_detection env audio n s).1.inference_count =
        s.inference_count + 1 ∧
      (process_gunshot_detection env audio n s).2.loggedDetection = true) := by
  have hmean : ¬ meanSq (fun _ => 1) AUDIO_BUFFER_SIZE < MIN_RMS_SQ := by
    rw [meanSq_one _ (by norm_num [AUDIO_BUFFER_SIZE])]
    norm_num [MIN_RMS_SQ]
  have key : ∀ (t : ℤ) (s : DetectorState),
      (ratePass t s).1 =
        ⟨(send_email_notification ⟨true, true, true⟩ true t s.last_email_time).2,
         s.inference_count + 1, s.detection_count + 1⟩ ∧
      (ratePass t s).2.eventEmitted =
        (send_email_notification ⟨true, true, true⟩ true t s.last_email_time).1 ∧
      (ratePass t s).2.loggedDetection = true ∧
      (ratePass t s).2.detectedFlag = true := by
    intro t s
    unfold ratePass
    rw [process_detect _ _ _ _ rfl hmean rfl (by norm_num [mkRateEnv]) rfl]
    refine ⟨?_, ?_, rfl, rfl⟩
    · simp [mkRateEnv]
    · simp [mkRateEnv]
  have hsend1 : send_email_notification ⟨true, true, true⟩ true t0 0 = (true, t0) :=
    send_first_ok t0 0 (by simpa using ht)
  have hsend2 : send_email_notification ⟨true, true, true⟩ true t0 t0 = (false, t0) :=
    send_rate_limited _ _ _ _
      (by simp only [EMAIL_RATE_LIMIT_SECONDS]; omega)
  have hsend2' : send_email_notification ⟨true, true, true⟩ true (t0 + 121) t0 =
      (true, t0 + 121) :=
    send_first_ok _ _ (by simp only [EMAIL_RATE_LIMIT_SECONDS]; omega)
  have hs1 : (ratePass t0 ⟨0, 0, 0⟩).1 = ⟨t0, 1, 1⟩ := by
    rw [(key t0 ⟨0, 0, 0⟩).1]
    simp [hsend1]
  have hgen : ∀ (env : PassEnv) (audio : ℕ → ℚ) (n : ℕ) (s : DetectorState),
      env.ml_ready = true → env.inferOk = true → env.threshold < env.prob2 →
      ¬ meanSq audio n < MIN_RMS_SQ →
      (process_gunshot_detection env audio n s).1.detection_count =
        s.detection_count + 1 ∧
      (process_gunshot_detection env audio n s).1.inference_count =
        s.inference_count + 1 ∧
      (process_gunshot_detection env audio n s).2.loggedDetection = true := by
    intro env audio n s hml hinf hdet hq
    unfold process_gunshot_detection
    rw [hml]
    by_cases hem : env.cfg.email_enabled = true <;>
      simp [hq, hinf, hdet, hem]
  refine ⟨⟨?_, ?_⟩, ?_, ⟨?_, ?_, ?_, ?_, ?_⟩, hgen⟩
  · rw [(key t0 ⟨0, 0, 0⟩).2.1]
    simp [hsend1]
  · rw [hs1, (key t0 ⟨t0, 1, 1⟩).2.1]
    simp [hsend2]
  · rw [hs1, (key (t0 + 121) ⟨t0, 1, 1⟩).2.1]
    simp [hsend2']
  · rw [hs1, (key t0 ⟨t0, 1, 1⟩).1]
  · rw [hs1, (key (t0 + 121) ⟨t0, 1, 1⟩).1]
  · rw [hs1, (key t0 ⟨t0, 1, 1⟩).1]
  · rw [hs1, (key t0 ⟨t0, 1, 1⟩).2.2.1]
  · rw [hs1, (key t0 ⟨t0, 1, 1⟩).2.2.2]

theorem detection_event_rate_limiting_witness :
    (EMAIL_RATE_LIMIT_SECONDS ≤ (1000 : ℤ)) ∧
    ((ratePass 1000 ⟨0, 0, 0⟩).2.eventEmitted = true ∧
     (ratePass 1000 (ratePass 1000 ⟨0, 0, 0⟩).1).2.eventEmitted = false) ∧
    (ratePass (1000 + 121) (ratePass 1000 ⟨0, 0, 0⟩).1).2.eventEmitted = true :=
  ⟨by norm_num [EMAIL_RATE_LIMIT_SECONDS],
   (detection_event_rate_limiting 1000 (by norm_num [EMAIL_RATE_LIMIT_SECONDS])).1,
   (detection_event_rate_limiting 1000 (by norm_num [EMAIL_RATE_LIMIT_SECONDS])).2.1⟩

/-- Test fixture: the empty system state. -/
def emptySys : SysState := ⟨⟨fun _ => 0, 0⟩, ⟨0, 0, 0⟩⟩

/-- Test fixture: the buffer after one 88000-sample chunk of amplitude
`0.0012` has been appended to the empty (zeroed) buffer. -/
def stepBuf : ℕ → ℚ :=
  (accum_append (⟨fun _ => 0, 0⟩ : AccumState) (fun _ => 3/2500) 88000).buf

lemma stepBuf_lt : ∀ i, i < 88000 → stepBuf i = 3/2500 := by
  intro i hi
  unfold stepBuf accum_append
  rw [if_pos (by norm_num [AUDIO_BUFFER_SIZE])]
  simp only
  rw [if_pos ⟨Nat.zero_le i, by omega⟩]

lemma stepBuf_ge : ∀ i, 88000 ≤ i → stepBuf i = 0 := by
  intro i hi
  unfold stepBuf accum_append
  rw [if_pos (by norm_num [AUDIO_BUFFER_SIZE])]
  simp only
  rw [if_neg (by omega)]

/-- Claim C2 counterexample: a chunk of 88000 samples of amplitude `0.0012`
(RMS `0.0012`, above the `0.001` noise floor) fills the buffer to exactly the
inference threshold and triggers consumption — but the code computes the RMS
over the whole `AUDIO_BUFFER_SIZE = 180800`-sample buffer (line 838 passes
`AUDIO_BUFFER_SIZE`, not `samples_accumulated`), diluting it below the floor
with the 92800 stale zero samples, so the pass is skipped with no extraction
and no inference.  Under the claim (RMS over exactly the filled region) this
pass would run. -/
theorem loudness_uses_whole_buffer :
    MIN_RMS_SQ ≤ meanSq stepBuf INFERENCE_THRESHOLD ∧
    (on_process_chunk (mkRateEnv 0) (fun _ => 3/2500) 88000 emptySys).2.map
      PassOutcome.skippedQuiet = some true ∧
    (on_process_chunk (mkRateEnv 0) (fun _ => 3/2500) 88000 emptySys).2.map
      PassOutcome.ranExtraction = some false ∧
    (on_process_chunk (mkRateEnv 0) (fun _ => 3/2500) 88000 emptySys).2.map
      PassOutcome.ranInference = some false := by
  have hfilled : meanSq stepBuf INFERENCE_THRESHOLD = 9/6250000 := by
    unfold meanSq INFERENCE_THRESHOLD
    rw [sum_sq_step stepBuf (3/2500) 88000 88000 (le_refl _) stepBuf_lt stepBuf_ge]
    norm_num
  have hwhole : meanSq stepBuf AUDIO_BUFFER_SIZE = 88000 * (3/2500 * 3/2500) / 180800 := by
    unfold meanSq AUDIO_BUFFER_SIZE
    rw [sum_sq_step stepBuf (3/2500) 88000 180800 (by norm_num) stepBuf_lt stepBuf_ge]
    norm_num
  have hskip : meanSq stepBuf AUDIO_BUFFER_SIZE < MIN_RMS_SQ := by
    rw [hwhole]
    norm_num [MIN_RMS_SQ]
  have hacc : accum_append emptySys.acc (fun _ => 3/2500) 88000 =
      ⟨stepBuf, 88000⟩ := by
    unfold emptySys stepBuf accum_append
    rw [if_pos (by norm_num [AUDIO_BUFFER_SIZE])]
  have hchunk : (on_process_chunk (mkRateEnv 0) (fun _ => 3/2500) 88000 emptySys).2 =
      some { noPass with
              skippedQuiet := true
              loudnessSq := meanSq stepBuf AUDIO_BUFFER_SIZE } := by
    unfold on_process_chunk
    rw [if_neg (by simp [mkRateEnv] : ¬ ((!(mkRateEnv 0).ml_ready) = true))]
    rw [if_pos (by norm_num [emptySys, AUDIO_BUFFER_SIZE])]
    rw [hacc]
    rw [if_pos (by norm_num [INFERENCE_THRESHOLD])]
    rw [show emptySys.det = ⟨0, 0, 0⟩ from rfl]
    rw [process_skip _ _ _ _ rfl hskip]
  refine ⟨?_, ?_, ?_, ?_⟩
  · rw [hfilled]
    norm_num [MIN_RMS_SQ]
  · rw [hchunk]
    rfl
  · rw [hchunk]
    rfl
  · rw [hchunk]
    rfl

/-- Claim C2 amended: when an appended chunk brings `filled` to the inference
threshold, the pass is consumed over the *entire* accumulation buffer: the
loudness is the RMS over all `AUDIO_BUFFER_SIZE` samples (filled region plus
whatever lies beyond `filled`), extraction runs over that whole buffer, the
below-floor skip (no extraction, no inference) is decided by that whole-buffer
RMS, and `filled` resets to 0 afterwards. -/
theorem loudness_gate_whole_buffer (env : PassEnv) (chunk : ℕ → ℚ) (len : ℕ)
    (st : SysState) (hml : env.ml_ready = true)
    (hfit : st.acc.filled + len ≤ AUDIO_BUFFER_SIZE)
    (htrig : INFERENCE_THRESHOLD ≤ st.acc.filled + len) :
    (on_process_chunk env chunk len st).2 = some (consumedPass env chunk len st).2 ∧
    ((consumedPass env chunk len st).2.skippedQuiet = true ↔
      meanSq (accum_append st.acc chunk len).buf AUDIO_BUFFER_SIZE < MIN_RMS_SQ) ∧
    ((consumedPass env chunk len st).2.skippedQuiet = false →
      (consumedPass env chunk len st).2.ranExtraction = true ∧
      (consumedPass env chunk len st).2.ranInference = true ∧
      (consumedPass env chunk len st).2.features =
        (compute_mel_spectrogram env.initOk env.hann env.log10f env.analyze
          env.bank (accum_append st.acc chunk len).buf AUDIO_BUFFER_SIZE).1) ∧
    ((consumedPass env chunk len st).2.skippedQuiet = true →
      (consumedPass env chunk len st).2.ranExtraction = false ∧
      (consumedPass env chunk len st).2.ranInference = false) ∧
    (consumedPass env chunk len st).2.loudnessSq =
      meanSq (accum_append st.acc chunk len).buf AUDIO_BUFFER_SIZE ∧
    (on_process_chunk env chunk len st).1.acc.filled = 0 := by
  have hfilled : (accum_append st.acc chunk len).filled = st.acc.filled + len := by
    unfold accum_append
    rw [if_pos hfit]
  have hopen : on_process_chunk env chunk len st =
      ({ acc := { buf := (accum_append st.acc chunk len).buf, filled := 0 },
         det := (consumedPass env chunk len st).1 },
       some (consumedPass env chunk len st).2) := by
    unfold on_process_chunk
    rw [hml]
    simp only [Bool.not_true, Bool.false_eq_true, if_false]
    rw [if_pos hfit, if_pos (by rw [hfilled]; exact htrig)]
    rfl
  refine ⟨?_, ?_, ?_, ?_, ?_, ?_⟩
  · rw [hopen]
  · by_cases hq : meanSq (accum_append st.acc chunk len).buf AUDIO_BUFFER_SIZE < MIN_RMS_SQ
    · unfold consumedPass
      rw [process_skip _ _ _ _ hml hq]
      simp [hq]
    · have h := (process_not_skipped env _ AUDIO_BUFFER_SIZE st.det hml hq).1
      unfold consumedPass
      rw [h]
      simp [hq]
  · intro hns
    have h := process_not_skipped env (accum_append st.acc chunk len).buf
      AUDIO_BUFFER_SIZE st.det hml ?_
    · exact ⟨h.2.1, h.2.2.2.1, h.2.2.2.2.1⟩
    · intro hq
      unfold consumedPass at hns
      rw [process_skip _ _ _ _ hml hq] at hns
      simp at hns
  · intro hsk
    by_cases hq : meanSq (accum_append st.acc chunk len).buf AUDIO_BUFFER_SIZE < MIN_RMS_SQ
    · unfold consumedPass
      rw [process_skip _ _ _ _ hml hq]
      exact ⟨rfl, rfl⟩
    · exfalso
      have h := (process_not_skipped env (accum_append st.acc chunk len).buf
        AUDIO_BUFFER_SIZE st.det hml hq).1
      unfold consumedPass at hsk
      rw [h] at hsk
      exact Bool.false_ne_true hsk
  · by_cases hq : meanSq (accum_append st.acc chunk len).buf AUDIO_BUFFER_SIZE < MIN_RMS_SQ
    · unfold consumedPass
      rw [process_skip _ _ _ _ hml hq]
    · exact (process_not_skipped env (accum_append st.acc chunk len).buf
        AUDIO_BUFFER_SIZE st.det hml hq).2.2.2.2.2
  · rw [hopen]

theorem loudness_gate_whole_buffer_witness :
    ((mkRateEnv 0).ml_ready = true ∧
     emptySys.acc.filled + 88000 ≤ AUDIO_BUFFER_SIZE ∧
     INFERENCE_THRESHOLD ≤ emptySys.acc.filled + 88000) ∧
    (on_process_chunk (mkRateEnv 0) (fun _ => 1) 88000 emptySys).1.acc.filled = 0 :=
  ⟨⟨rfl, by norm_num [emptySys, AUDIO_BUFFER_SIZE],
    by norm_num [emptySys, INFERENCE_THRESHOLD]⟩,
   (loudness_gate_whole_buffer (mkRateEnv 0) (fun _ => 1) 88000 emptySys rfl
     (by norm_num [emptySys, AUDIO_BUFFER_SIZE])
     (by norm_num [emptySys, INFERENCE_THRESHOLD])).2.2.2.2.2⟩

/-- Claim C9 counterexample: with the workspace initialization failing
(`initOk = false`), `compute_mel_spectrogram` only zeroes its output
(lines 639-643, `void` return), and `process_gunshot_detection` proceeds
unconditionally to quantization (line 735) and the inference job (line 742)
on the all-zero feature matrix — the caller does not stop the pass. -/
theorem init_failure_reaches_inference :
    (process_gunshot_detection { mkRateEnv 0 with initOk := false } (fun _ => 1)
      AUDIO_BUFFER_SIZE ⟨0, 0, 0⟩).2.ranQuantize = true ∧
    (process_gunshot_detection { mkRateEnv 0 with initOk := false } (fun _ => 1)
      AUDIO_BUFFER_SIZE ⟨0, 0, 0⟩).2.ranInference = true ∧
    (process_gunshot_detection { mkRateEnv 0 with initOk := false } (fun _ => 1)
      AUDIO_BUFFER_SIZE ⟨0, 0, 0⟩).2.features = (fun _ => 0) := by
  have hmean : ¬ meanSq (fun _ => 1) AUDIO_BUFFER_SIZE < MIN_RMS_SQ := by
    rw [meanSq_one _ (by norm_num [AUDIO_BUFFER_SIZE])]
    norm_num [MIN_RMS_SQ]
  obtain ⟨-, -, hq, hri, hf, -⟩ := process_not_skipped
    { mkRateEnv 0 with initOk := false } (fun _ => 1) AUDIO_BUFFER_SIZE
    ⟨0, 0, 0⟩ rfl hmean
  exact ⟨hq, hri, by rw [hf]; rfl⟩

/-- Claim C9 amended: workspace-initialization failure is fatal only at program
startup, where `main` exits before `ml_ready` is ever set (lines 1095-1107);
during a pass, a failed initialization makes the extractor zero the feature
matrix, but the caller still proceeds to quantization and to the inference
job on that zeroed matrix. -/
theorem workspace_failure_policy (env : PassEnv) (audio : ℕ → ℚ) (n : ℕ)
    (s : DetectorState) (hml : env.ml_ready = true) (hinit : env.initOk = false)
    (hq : ¬ meanSq audio n < MIN_RMS_SQ) :
    (main_startup true false true = none ∧ main_startup true true false = none ∧
     main_startup false true true = none ∧ main_startup true true true = some true) ∧
    (process_gunshot_detection env audio n s).2.features = (fun _ => 0) ∧
    (process_gunshot_detection env audio n s).2.ranQuantize = true ∧
    (process_gunshot_detection env audio n s).2.ranInference = true := by
  obtain ⟨-, -, hquant, hri, hf, -⟩ := process_not_skipped env audio n s hml hq
  refine ⟨⟨rfl, rfl, rfl, rfl⟩, ?_, hquant, hri⟩
  rw [hf, hinit]
  rfl

theorem workspace_failure_policy_witness :
    (¬ meanSq (fun _ => 1) AUDIO_BUFFER_SIZE < MIN_RMS_SQ) ∧
    (process_gunshot_detection { mkRateEnv 0 with initOk := false } (fun _ => 1)
      AUDIO_BUFFER_SIZE ⟨0, 0, 0⟩).2.features = (fun _ => 0) := by
  have hq : ¬ meanSq (fun _ => 1) AUDIO_BUFFER_SIZE < MIN_RMS_SQ := by
    rw [meanSq_one _ (by norm_num [AUDIO_BUFFER_SIZE])]
    norm_num [MIN_RMS_SQ]
  exact ⟨hq,
    (workspace_failure_policy { mkRateEnv 0 with initOk := false } (fun _ => 1)
      AUDIO_BUFFER_SIZE ⟨0, 0, 0⟩ rfl rfl hq).2.1⟩

end Gunshot
